import Mathlib

/-!
Shallow embedding of the task-orchestration core of the xiaole backend:
`TaskExecutor` (src/task_executor.py), the persistence operations of
`TaskManager` that it relies on (src/task_manager.py), the resumption gate
`_check_and_resume_task` (src/agent.py) and the task de-duplication guard in
`XiaoLeAgent.process` (src/agent.py).

Modelling conventions:

* The relational store is modelled as reliable (reads and writes succeed);
  timestamp columns are omitted, no claim mentions them.
* Tool parameter payloads and logging are folded into oracles: the tool
  dispatcher is a function `String → Except String ToolResult` where
  `Except.error` models a raised exception, and the user-confirm callback is
  `Option (Step → Except String Bool)` where `Except.error` models a raised
  exception inside the callback.
* The Python dictionaries produced by the step runner are modelled by the
  structure `StepResult`; `json.dumps` of such a dictionary is modelled by
  `jsonOfStepResult`.
* One Python behaviour is embedded exactly as the interpreter executes it:
  when a step fails, `execute_task` (src/task_executor.py lines 127-131)
  calls `update_step_status(step_id=..., status='failed', error=...)`, but
  `TaskManager.update_step_status` (src/task_manager.py line 405) has
  parameters `(step_id, status, result, error_message)` — there is no
  keyword `error`, so the call raises `TypeError` before the store is
  touched, and the exception is caught by `execute_task`'s outer handler
  which marks the task failed and returns a `success=False` report.  In the
  embedding `runSteps` returns `LoopOutcome.raised` at that point and
  `execute_task` maps that outcome to the handler's behaviour.
-/

namespace XiaoLe

/-- Task and step statuses, as the status strings used in the store. -/
inductive Status where
  | pending
  | in_progress
  | waiting
  | completed
  | failed
  | cancelled
deriving DecidableEq, Repr

/-- The status string stored in the database for each `Status`. -/
def statusStr : Status → String
  | .pending => "pending"
  | .in_progress => "in_progress"
  | .waiting => "waiting"
  | .completed => "completed"
  | .failed => "failed"
  | .cancelled => "cancelled"

/-- The dictionary returned by `ToolRegistry.execute` (src/tool_manager.py):
it always carries a `success` flag and possibly an error message. -/
structure ToolResult where
  success : Bool
  error : Option String := none
deriving DecidableEq, Repr

/-- The dictionary returned by the step runner `_execute_step` and its
helpers (src/task_executor.py): `success` is always present, the other keys
are present only on some branches, hence `Option`. -/
structure StepResult where
  success : Bool
  status : Option String := none
  error : Option String := none
  confirmed : Option Bool := none
  message : Option String := none
  toolResult : Option ToolResult := none
  action_type : Option String := none
deriving DecidableEq, Repr

/-- A row of the `task_steps` table as loaded by `get_task_steps`
(src/task_manager.py), with `action_params` already JSON-decoded:
`tool_name` models `action_params['tool_name']` for `tool_call` steps and
`continue_on_error` models `step.get('continue_on_error', False)`.  The
`duration`/`reason` payload of `wait` steps is omitted: `wait` steps are
purely informational and always succeed. -/
structure Step where
  id : Nat
  step_num : Nat
  description : String
  action_type : String
  tool_name : Option String := none
  continue_on_error : Bool := false
  status : Status := Status.pending
  result : Option String := none
  error_message : Option String := none
deriving DecidableEq, Repr

/-- The store's view of one task: its status row plus its step rows in
`step_num` order (`get_task_steps` sorts by `step_num`). -/
structure TaskState where
  status : Status
  steps : List Step
deriving DecidableEq, Repr

/-- The field updates `TaskManager.update_step_status` performs on the
matching row: the status is always set, `result` and `error_message` only
when the corresponding argument is not `None`. -/
def stepWithUpdate (s : Step) (stat : Status) (result error_message : Option String) : Step :=
  { s with
    status := stat
    result := match result with | some r => some r | none => s.result
    error_message := match error_message with | some e => some e | none => s.error_message }

/-- `TaskManager.update_step_status` (src/task_manager.py line 405): update
the row whose primary key is `step_id`. -/
def updateStepList (steps : List Step) (step_id : Nat) (stat : Status)
    (result error_message : Option String) : List Step :=
  steps.map (fun s => if s.id = step_id then stepWithUpdate s stat result error_message else s)

/-- `update_step_status` lifted to a task's state. -/
def update_step_status (st : TaskState) (step_id : Nat) (stat : Status)
    (result error_message : Option String) : TaskState :=
  { st with steps := updateStepList st.steps step_id stat result error_message }

/-- Rendering of a `Bool` in JSON. -/
def jsonBool (b : Bool) : String := if b then "true" else "false"

/-- Rendering of an optional string in JSON. -/
def jsonOptStr : Option String → String
  | none => "null"
  | some s => "\"" ++ s ++ "\""

/-- Model of `json.dumps(step_result, ensure_ascii=False)` for the step
results persisted by `execute_task`. -/
def jsonOfStepResult (r : StepResult) : String :=
  "\x7b\"success\": " ++ jsonBool r.success ++
  ", \"status\": " ++ jsonOptStr r.status ++
  ", \"error\": " ++ jsonOptStr r.error ++ "\x7d"

/-- `TaskExecutor._execute_tool_call` (src/task_executor.py lines 246-297).
The dispatcher oracle maps the tool name to the outcome of
`asyncio.run(self.tool_registry.execute(...))`; `Except.error` models a
raised exception.  The second component counts dispatcher invocations.
Note the source wraps a returned dispatcher dictionary in
`{'success': True, ..., 'result': result}` without inspecting the
dictionary's own `success` flag. -/
def execute_tool_call (dispatch : String → Except String ToolResult)
    (tool_name : Option String) : StepResult × Nat :=
  match tool_name with
  | none => ({ success := false, error := some "缺少工具名称" }, 0)
  | some name =>
    match dispatch name with
    | Except.ok r =>
      ({ success := true, toolResult := some r, action_type := some "tool_call" }, 1)
    | Except.error e =>
      ({ success := false, error := some ("工具调用失败: " ++ e) }, 1)

/-- `TaskExecutor._execute_user_confirm` (src/task_executor.py lines
299-339): with no callback it returns a `waiting` result; with a callback
it reports the confirmation, and a raising callback is caught. -/
def execute_user_confirm (callback : Option (Step → Except String Bool))
    (step : Step) : StepResult :=
  match callback with
  | none =>
    { success := true, confirmed := some false, action_type := some "user_confirm",
      status := some "waiting", message := some step.description }
  | some cb =>
    match cb step with
    | Except.ok b => { success := true, confirmed := some b, action_type := some "user_confirm" }
    | Except.error e => { success := false, error := some ("用户确认失败: " ++ e) }

/-- `TaskExecutor._execute_wait` (src/task_executor.py lines 341-363):
purely informational, always succeeds (the duration payload is omitted). -/
def execute_wait : StepResult :=
  { success := true, action_type := some "wait" }

/-- `TaskExecutor._execute_step` (src/task_executor.py lines 184-244):
dispatch on `action_type`; an unknown type is reported as a failure, not
raised.  The second component counts dispatcher invocations. -/
def execute_step (dispatch : String → Except String ToolResult)
    (callback : Option (Step → Except String Bool)) (step : Step) : StepResult × Nat :=
  if step.action_type = "tool_call" then
    execute_tool_call dispatch step.tool_name
  else if step.action_type = "user_confirm" then
    (execute_user_confirm callback step, 0)
  else if step.action_type = "wait" then
    (execute_wait, 0)
  else if step.action_type = "info" then
    ({ success := true, message := some step.description, action_type := some "info" }, 0)
  else
    ({ success := false, error := some ("未知的步骤类型: " ++ step.action_type) }, 0)

/-- Accumulator of the step loop of `execute_task`: the store state for the
task, the two tallies, and the number of dispatcher invocations so far. -/
structure LoopAcc where
  state : TaskState
  completed_steps : Nat
  failed_steps : Nat
  tool_calls : Nat
deriving DecidableEq, Repr

/-- Outcome of the step loop: the list was exhausted (`cont`), the loop was
broken by a waiting step (`halted`), or an exception propagated out of the
loop (`raised`). -/
inductive LoopOutcome where
  | cont (acc : LoopAcc)
  | halted (acc : LoopAcc)
  | raised (acc : LoopAcc) (msg : String)
deriving DecidableEq, Repr

/-- The message of the `TypeError` raised by
`update_step_status(step_id=..., status='failed', error=...)`: the callee
(src/task_manager.py line 405) has no keyword parameter named `error`. -/
def updateStepKeywordError : String :=
  "TypeError: update_step_status() got an unexpected keyword argument error"

/-- The step loop of `execute_task` (src/task_executor.py lines 83-137),
iterating over the loaded step list: already-settled steps are skipped and
tallied; a `waiting` result persists the step as waiting and breaks; a
successful result persists the step as completed and tallies; a failed
result reaches the `update_step_status(..., error=...)` call, which raises
`TypeError` (see `updateStepKeywordError`) before the store is touched. -/
def runSteps (dispatch : String → Except String ToolResult)
    (callback : Option (Step → Except String Bool)) :
    List Step → LoopAcc → LoopOutcome
  | [], acc => LoopOutcome.cont acc
  | step :: rest, acc =>
    if step.status = Status.completed then
      runSteps dispatch callback rest { acc with completed_steps := acc.completed_steps + 1 }
    else if step.status = Status.failed then
      runSteps dispatch callback rest { acc with failed_steps := acc.failed_steps + 1 }
    else
      let pr := execute_step dispatch callback step
      let acc1 := { acc with tool_calls := acc.tool_calls + pr.2 }
      if pr.1.status = some "waiting" then
        LoopOutcome.halted
          { acc1 with state :=
              update_step_status acc1.state step.id Status.waiting (some (jsonOfStepResult pr.1)) none }
      else if pr.1.success then
        runSteps dispatch callback rest
          { acc1 with
            state :=
              update_step_status acc1.state step.id Status.completed (some (jsonOfStepResult pr.1)) none
            completed_steps := acc1.completed_steps + 1 }
      else
        LoopOutcome.raised acc1 updateStepKeywordError

/-- The report dictionary returned by `execute_task`. -/
structure Report where
  success : Bool
  error : Option String := none
  status : Option Status := none
  total_steps : Nat := 0
  completed_steps : Nat := 0
  failed_steps : Nat := 0
deriving DecidableEq, Repr

/-- Result of one `execute_task` invocation: the returned report, the task's
state in the store afterwards (`none` when the task does not exist), and the
number of dispatcher invocations performed. -/
structure ExecResult where
  report : Report
  task : Option TaskState
  tool_calls : Nat
deriving DecidableEq, Repr

/-- The terminal-status check of `execute_task` (src/task_executor.py line
57): `task['status'] in ['completed', 'failed', 'cancelled']`. -/
def isTerminal (s : Status) : Bool :=
  s = Status.completed || s = Status.failed || s = Status.cancelled

/-- The final-status aggregation of `execute_task` (src/task_executor.py
lines 139-151). -/
def aggregateStatus (total completed_steps failed_steps : Nat) : Status :=
  if 0 < failed_steps ∧ completed_steps = 0 then Status.failed
  else if completed_steps = total then Status.completed
  else if 0 < failed_steps then Status.failed
  else Status.waiting

/-- `TaskExecutor.execute_task` (src/task_executor.py lines 29-182) acting
on the task's store state: fail fast on a missing or terminal task, set the
task `in_progress`, fail fast on an empty step list (leaving the status
`in_progress`), run the step loop, then either aggregate and persist the
final status, or — if the loop raised — persist `failed` and return the
exception text, mirroring the outer `except` handler. -/
def execute_task (dispatch : String → Except String ToolResult)
    (callback : Option (Step → Except String Bool))
    (task : Option TaskState) : ExecResult :=
  match task with
  | none => ⟨{ success := false, error := some "任务不存在" }, none, 0⟩
  | some task0 =>
    if isTerminal task0.status then
      ⟨{ success := false, error := some ("任务状态无效: " ++ statusStr task0.status) },
       some task0, 0⟩
    else
      let st : TaskState := { task0 with status := Status.in_progress }
      if st.steps = [] then
        ⟨{ success := false, error := some "任务没有步骤" }, some st, 0⟩
      else
        let total := st.steps.length
        match runSteps dispatch callback st.steps ⟨st, 0, 0, 0⟩ with
        | LoopOutcome.cont acc =>
          let fin := aggregateStatus total acc.completed_steps acc.failed_steps
          ⟨{ success := true, status := some fin, total_steps := total,
             completed_steps := acc.completed_steps, failed_steps := acc.failed_steps },
           some { acc.state with status := fin }, acc.tool_calls⟩
        | LoopOutcome.halted acc =>
          let fin := aggregateStatus total acc.completed_steps acc.failed_steps
          ⟨{ success := true, status := some fin, total_steps := total,
             completed_steps := acc.completed_steps, failed_steps := acc.failed_steps },
           some { acc.state with status := fin }, acc.tool_calls⟩
        | LoopOutcome.raised acc msg =>
          ⟨{ success := false, error := some msg },
           some { acc.state with status := Status.failed }, acc.tool_calls⟩

/-- `TaskExecutor.resume_task` (src/task_executor.py lines 365-399): a thin
guard that requires status `waiting` before delegating to `execute_task`
(which the agent calls without a confirm callback). -/
def resume_task (dispatch : String → Except String ToolResult)
    (task : Option TaskState) : ExecResult :=
  match task with
  | none => ⟨{ success := false, error := some "任务不存在" }, none, 0⟩
  | some st =>
    if st.status = Status.waiting then
      execute_task dispatch none (some st)
    else
      ⟨{ success := false, error := some ("任务状态不是waiting,无法恢复: " ++ statusStr st.status) },
       some st, 0⟩

/-- A task row as seen by the resumption gate: id, status and its steps. -/
structure SessTask where
  id : Nat
  status : Status
  steps : List Step
deriving DecidableEq, Repr

/-- `update_step_status` applied to the step with the given id inside the
session's task with the given task id. -/
def updateSessionStep (sess : List SessTask) (task_id step_id : Nat) (stat : Status)
    (result error_message : Option String) : List SessTask :=
  sess.map (fun t =>
    if t.id = task_id then
      { t with steps := updateStepList t.steps step_id stat result error_message }
    else t)

/-- `update_task_status` applied inside the session's task list. -/
def updateSessionTask (sess : List SessTask) (task_id : Nat) (stat : Status) : List SessTask :=
  sess.map (fun t => if t.id = task_id then { t with status := stat } else t)

/-- Writing the task state produced by `execute_task` back into the session
list (in the source the executor mutates the shared store directly). -/
def writeBackTask (sess : List SessTask) (task_id : Nat) (fin : TaskState) : List SessTask :=
  sess.map (fun t => if t.id = task_id then { t with status := fin.status, steps := fin.steps } else t)

/-- `json.dumps({'confirmed': True, 'user_input': prompt})` as written by the
confirmed branch of the resumption gate. -/
def confirmResultJson (prompt : String) : String :=
  "\x7b\"confirmed\": true, \"user_input\": " ++ jsonOptStr (some prompt) ++ "\x7d"

/-- `XiaoLeAgent._check_and_resume_task` (src/agent.py lines 2593-2655):
take the first waiting task of the session, find its waiting step, classify
the incoming message with the confirmation-classifier oracle, and act:
`unrelated` returns `None` with no state change, `confirmed` marks the step
completed and resumes the task, anything else takes the rejected branch. -/
def check_and_resume (classify : String → String → String)
    (dispatch : String → Except String ToolResult)
    (prompt : String) (sess : List SessTask) : Option Report × List SessTask :=
  match sess.filter (fun t => decide (t.status = Status.waiting)) with
  | [] => (none, sess)
  | task :: _ =>
    match task.steps.find? (fun s => decide (s.status = Status.waiting)) with
    | none => (none, sess)
    | some waiting_step =>
      let confirmation := classify prompt waiting_step.description
      if confirmation = "unrelated" then (none, sess)
      else if confirmation = "confirmed" then
        let sess1 := updateSessionStep sess task.id waiting_step.id Status.completed
          (some (confirmResultJson prompt)) none
        match sess1.find? (fun t => decide (t.id = task.id)) with
        | none => (none, sess1)
        | some t1 =>
          let r := resume_task dispatch (some ⟨t1.status, t1.steps⟩)
          let sess2 := match r.task with
            | some fin => writeBackTask sess1 task.id fin
            | none => sess1
          (some r.report, sess2)
      else
        let sess1 := updateSessionStep sess task.id waiting_step.id Status.failed
          none (some ("用户拒绝: " ++ prompt))
        let sess2 := updateSessionTask sess1 task.id Status.failed
        (some { success := false,
                error := some ("任务已根据您的要求取消 (用户拒绝: " ++ prompt ++ ")") },
         sess2)

/-- A task row as seen by the de-duplication guard: title and creation time
in seconds. -/
structure UTask where
  title : String
  created_at : Int
deriving DecidableEq, Repr

/-- `get_tasks_by_user(user_id, limit)` (src/task_manager.py): the user's
tasks ordered by `created_at DESC`, limited.  The model keeps the user's
task list newest-first, so the query is a `take`. -/
def get_tasks_by_user (store : List UTask) (limit : Nat) : List UTask :=
  store.take limit

/-- The duplicate scan of the task-creation guard (src/agent.py lines
673-694): some recent task has the identical title and was created less
than 60 seconds ago. -/
def is_duplicate_task (recent : List UTask) (title : String) (now : Int) : Bool :=
  recent.any (fun t => decide (t.title = title ∧ now - t.created_at < 60))

/-- The task-creation guard of `XiaoLeAgent.process` (src/agent.py lines
673-701) on the success path of decomposition: scan the user's last 5
tasks; if a duplicate is found skip creation, otherwise create the task
(newest-first). -/
def process_task_creation (store : List UTask) (title : String) (now : Int) : List UTask :=
  if is_duplicate_task (get_tasks_by_user store 5) title now then store
  else ⟨title, now⟩ :: store

/-- Number of persisted tasks with the given title. -/
def countTitle (store : List UTask) (title : String) : Nat :=
  (store.filter (fun t => decide (t.title = title))).length

/-! ### Store and loop lemmas -/

/-- Updating a step id that does not occur in the list is a no-op. -/
lemma updateStepList_not_mem (l : List Step) (sid : Nat) (stat : Status)
    (r e : Option String) (h : sid ∉ l.map Step.id) :
    updateStepList l sid stat r e = l := by
  induction l with
  | nil => rfl
  | cons a t ih =>
    simp only [List.map_cons, List.mem_cons, not_or] at h
    have ha : ¬a.id = sid := fun hc => h.1 hc.symm
    simp only [updateStepList, List.map_cons, if_neg ha]
    have := ih h.2
    simp only [updateStepList] at this
    rw [this]

/-- With unique step ids, updating the id of the distinguished element of a
decomposed list changes exactly that element. -/
lemma updateStepList_append (done : List Step) (step : Step) (rest : List Step)
    (stat : Status) (r e : Option String)
    (h : ((done ++ step :: rest).map Step.id).Nodup) :
    updateStepList (done ++ step :: rest) step.id stat r e =
      done ++ stepWithUpdate step stat r e :: rest := by
  induction done with
  | nil =>
    simp only [List.nil_append, List.map_cons, List.nodup_cons] at h
    have heq : updateStepList rest step.id stat r e = rest :=
      updateStepList_not_mem rest step.id stat r e h.1
    simp only [updateStepList] at heq
    simp [updateStepList, heq]
  | cons d t ih =>
    simp only [List.cons_append, List.map_cons, List.nodup_cons] at h
    have hmem : step.id ∈ (t ++ step :: rest).map Step.id := by
      simp only [List.map_append, List.map_cons]
      exact List.mem_append_right _ (List.mem_cons_self _ _)
    have hd : ¬d.id = step.id := fun hc => h.1 (hc ▸ hmem)
    have heq := ih h.2
    simp only [updateStepList] at heq
    simp only [List.cons_append, updateStepList, List.map_cons, if_neg hd]
    rw [heq]

/-- A step whose id is not the updated one survives the update unchanged. -/
lemma mem_updateStepList (l : List Step) (sid : Nat) (stat : Status)
    (r e : Option String) (q : Step) (hq : q ∈ l) (hne : q.id ≠ sid) :
    q ∈ updateStepList l sid stat r e := by
  have : (if q.id = sid then stepWithUpdate q stat r e else q) ∈
      l.map (fun s => if s.id = sid then stepWithUpdate s stat r e else s) :=
    List.mem_map_of_mem _ hq
  rwa [if_neg hne] at this

/-- The loop accumulator carried by each outcome. -/
def accOf : LoopOutcome → LoopAcc
  | LoopOutcome.cont acc => acc
  | LoopOutcome.halted acc => acc
  | LoopOutcome.raised acc _ => acc

/-- The step loop over a concatenation: if the first part falls through,
the second part continues from its accumulator; otherwise its halt or
exception is the whole loop's outcome. -/
lemma runSteps_append (dispatch : String → Except String ToolResult)
    (callback : Option (Step → Except String Bool)) (pre rest : List Step) (acc : LoopAcc) :
    runSteps dispatch callback (pre ++ rest) acc =
      match runSteps dispatch callback pre acc with
      | LoopOutcome.cont acc1 => runSteps dispatch callback rest acc1
      | LoopOutcome.halted acc1 => LoopOutcome.halted acc1
      | LoopOutcome.raised acc1 msg => LoopOutcome.raised acc1 msg := by
  induction pre generalizing acc with
  | nil => simp [runSteps]
  | cons p t ih =>
    simp only [List.cons_append, runSteps]
    simp only [List.append_eq]
    by_cases h1 : p.status = Status.completed
    · rw [if_pos h1, if_pos h1, ih]
    · rw [if_neg h1, if_neg h1]
      by_cases h2 : p.status = Status.failed
      · rw [if_pos h2, if_pos h2, ih]
      · rw [if_neg h2, if_neg h2]
        by_cases h3 : (execute_step dispatch callback p).1.status = some "waiting"
        · rw [if_pos h3, if_pos h3]
        · rw [if_neg h3, if_neg h3]
          by_cases h4 : (execute_step dispatch callback p).1.success = true
          · rw [if_pos h4, if_pos h4, ih]
          · rw [if_neg h4, if_neg h4]

/-- The loop never touches a step whose id differs from every id of the
list it iterates over: such a step survives into the outcome's state. -/
lemma runSteps_frame (dispatch : String → Except String ToolResult)
    (callback : Option (Step → Except String Bool)) (l : List Step) (acc : LoopAcc)
    (q : Step) (hq : q ∈ acc.state.steps) (hid : ∀ p ∈ l, p.id ≠ q.id) :
    q ∈ (accOf (runSteps dispatch callback l acc)).state.steps := by
  induction l generalizing acc with
  | nil => exact hq
  | cons p t ih =>
    have hpq : q.id ≠ p.id := fun hc => (hid p (List.mem_cons_self _ _)) hc.symm
    have hid' : ∀ p' ∈ t, p'.id ≠ q.id := fun p' hp' => hid p' (List.mem_cons_of_mem _ hp')
    simp only [runSteps]
    by_cases h1 : p.status = Status.completed
    · rw [if_pos h1]; exact ih _ hq hid'
    · rw [if_neg h1]
      by_cases h2 : p.status = Status.failed
      · rw [if_pos h2]; exact ih _ hq hid'
      · rw [if_neg h2]
        by_cases h3 : (execute_step dispatch callback p).1.status = some "waiting"
        · rw [if_pos h3]
          exact mem_updateStepList _ _ _ _ _ q hq hpq
        · rw [if_neg h3]
          by_cases h4 : (execute_step dispatch callback p).1.success = true
          · rw [if_pos h4]
            exact ih _ (mem_updateStepList _ _ _ _ _ q hq hpq) hid'
          · rw [if_neg h4]
            exact hq

/-- A failed step-runner result never carries `status='waiting'`: every
failure branch of `_execute_step` and its helpers leaves `status` unset. -/
lemma execute_step_fail_status (dispatch : String → Except String ToolResult)
    (callback : Option (Step → Except String Bool)) (step : Step)
    (h : (execute_step dispatch callback step).1.success = false) :
    (execute_step dispatch callback step).1.status = none := by
  unfold execute_step at h ⊢
  by_cases h1 : step.action_type = "tool_call"
  · rw [if_pos h1] at h ⊢
    unfold execute_tool_call at h ⊢
    cases htn : step.tool_name with
    | none => rfl
    | some name =>
      cases hd : dispatch name with
      | ok r => rw [htn] at h; simp [hd] at h
      | error e => simp [hd]
  · rw [if_neg h1] at h ⊢
    by_cases h2 : step.action_type = "user_confirm"
    · rw [if_pos h2] at h ⊢
      unfold execute_user_confirm at h ⊢
      cases hcb : callback with
      | none => rw [hcb] at h; simp at h
      | some cb =>
        cases hres : cb step with
        | ok b => rw [hcb] at h; simp [hres] at h
        | error e => simp [hres]
    · rw [if_neg h2] at h ⊢
      by_cases h3 : step.action_type = "wait"
      · rw [if_pos h3] at h; simp [execute_wait] at h
      · rw [if_neg h3] at h ⊢
        by_cases h4 : step.action_type = "info"
        · rw [if_pos h4] at h; simp at h
        · rw [if_neg h4] at h ⊢

/-- When the loop reaches a not-yet-settled step whose execution reports
failure, the attempted `update_step_status(..., error=...)` persistence
raises before anything is written: the loop stops there with only the
dispatcher-invocation counter advanced. -/
lemma runSteps_fail_head (dispatch : String → Except String ToolResult)
    (callback : Option (Step → Except String Bool)) (step : Step) (post : List Step)
    (acc : LoopAcc) (h1 : step.status ≠ Status.completed) (h2 : step.status ≠ Status.failed)
    (hfail : (execute_step dispatch callback step).1.success = false) :
    runSteps dispatch callback (step :: post) acc =
      LoopOutcome.raised
        { acc with tool_calls := acc.tool_calls + (execute_step dispatch callback step).2 }
        updateStepKeywordError := by
  have hst := execute_step_fail_status dispatch callback step hfail
  simp only [runSteps, if_neg h1, if_neg h2]
  rw [if_neg (by simp [hst]), if_neg (by simp [hfail])]

/-- When the loop reaches a not-yet-settled step whose execution reports
`status='waiting'`, the step is persisted as waiting and the loop breaks
immediately. -/
lemma runSteps_waiting_head (dispatch : String → Except String ToolResult)
    (callback : Option (Step → Except String Bool)) (step : Step) (post : List Step)
    (acc : LoopAcc) (h1 : step.status ≠ Status.completed) (h2 : step.status ≠ Status.failed)
    (hw : (execute_step dispatch callback step).1.status = some "waiting") :
    runSteps dispatch callback (step :: post) acc =
      LoopOutcome.halted
        { acc with
          tool_calls := acc.tool_calls + (execute_step dispatch callback step).2
          state := update_step_status acc.state step.id Status.waiting
            (some (jsonOfStepResult (execute_step dispatch callback step).1)) none } := by
  simp only [runSteps, if_neg h1, if_neg h2]
  rw [if_pos hw]

/-- `execute_task` when the loop raises: the outer handler persists status
`failed` and returns the exception text with `success=False`. -/
lemma execute_task_of_raised (dispatch : String → Except String ToolResult)
    (callback : Option (Step → Except String Bool)) (st : TaskState) (acc : LoopAcc)
    (msg : String) (hterm : isTerminal st.status = false) (hne : st.steps ≠ [])
    (hrun : runSteps dispatch callback st.steps ⟨⟨Status.in_progress, st.steps⟩, 0, 0, 0⟩ =
      LoopOutcome.raised acc msg) :
    execute_task dispatch callback (some st) =
      ⟨{ success := false, error := some msg },
       some { acc.state with status := Status.failed }, acc.tool_calls⟩ := by
  unfold execute_task
  simp only [hterm, Bool.false_eq_true, if_false]
  rw [if_neg hne]
  rw [hrun]

/-- `execute_task` when the loop breaks on a waiting step: the aggregated
status is persisted. -/
lemma execute_task_of_halted (dispatch : String → Except String ToolResult)
    (callback : Option (Step → Except String Bool)) (st : TaskState) (acc : LoopAcc)
    (hterm : isTerminal st.status = false) (hne : st.steps ≠ [])
    (hrun : runSteps dispatch callback st.steps ⟨⟨Status.in_progress, st.steps⟩, 0, 0, 0⟩ =
      LoopOutcome.halted acc) :
    execute_task dispatch callback (some st) =
      ⟨{ success := true,
         status := some (aggregateStatus st.steps.length acc.completed_steps acc.failed_steps),
         total_steps := st.steps.length,
         completed_steps := acc.completed_steps, failed_steps := acc.failed_steps },
       some { acc.state with
         status := aggregateStatus st.steps.length acc.completed_steps acc.failed_steps },
       acc.tool_calls⟩ := by
  unfold execute_task
  simp only [hterm, Bool.false_eq_true, if_false]
  rw [if_neg hne]
  rw [hrun]

/-- `execute_task` when the loop exhausts the step list: the aggregated
status is persisted. -/
lemma execute_task_of_cont (dispatch : String → Except String ToolResult)
    (callback : Option (Step → Except String Bool)) (st : TaskState) (acc : LoopAcc)
    (hterm : isTerminal st.status = false) (hne : st.steps ≠ [])
    (hrun : runSteps dispatch callback st.steps ⟨⟨Status.in_progress, st.steps⟩, 0, 0, 0⟩ =
      LoopOutcome.cont acc) :
    execute_task dispatch callback (some st) =
      ⟨{ success := true,
         status := some (aggregateStatus st.steps.length acc.completed_steps acc.failed_steps),
         total_steps := st.steps.length,
         completed_steps := acc.completed_steps, failed_steps := acc.failed_steps },
       some { acc.state with
         status := aggregateStatus st.steps.length acc.completed_steps acc.failed_steps },
       acc.tool_calls⟩ := by
  unfold execute_task
  simp only [hterm, Bool.false_eq_true, if_false]
  rw [if_neg hne]
  rw [hrun]

/-- The aggregation of `execute_task` only ever produces `completed`,
`failed` or `waiting`. -/
lemma aggregateStatus_mem (t c f : Nat) :
    aggregateStatus t c f = Status.completed ∨ aggregateStatus t c f = Status.failed ∨
      aggregateStatus t c f = Status.waiting := by
  unfold aggregateStatus
  split_ifs <;> simp

/-! ### Concrete fixtures used by counterexamples and witnesses -/

/-- A dispatcher whose tools always succeed. -/
def d0 : String → Except String ToolResult := fun _ => Except.ok ⟨true, none⟩

/-- A dispatcher that returns a `success=False` dictionary (it does not
raise), as `ToolRegistry.execute` does for a missing tool or a tool error. -/
def dFail : String → Except String ToolResult := fun _ => Except.ok ⟨false, some "boom"⟩

/-- A dispatcher that raises. -/
def dRaise : String → Except String ToolResult := fun _ => Except.error "超时"

/-- A step whose `action_type` matches no branch of `_execute_step`, so its
execution reports failure. -/
def bogusStep : Step :=
  { id := 1, step_num := 1, description := "第一步", action_type := "bogus" }

/-- A pending `user_confirm` step. -/
def confirmStep : Step :=
  { id := 2, step_num := 2, description := "确认执行?", action_type := "user_confirm" }

/-- A pending `info` step. -/
def infoStep : Step :=
  { id := 3, step_num := 3, description := "提示", action_type := "info" }

/-- A waiting `user_confirm` step, as persisted by a suspended run. -/
def waitingStep : Step :=
  { id := 7, step_num := 1, description := "确认执行?", action_type := "user_confirm",
    status := Status.waiting }

/-- A session with one waiting task holding one waiting step. -/
def waitingSessTask : SessTask := ⟨11, Status.waiting, [waitingStep]⟩

/-! ### Claim theorems -/

/-- C1, counterexample: the claim says a dispatcher result with
`success=false` is reported as a step failure, but `_execute_tool_call`
wraps any non-raising dispatcher result in `success=True` without
inspecting the dispatcher's own flag: the step succeeds, with no error and
the failing dispatcher dictionary attached. -/
theorem tool_dispatcher_failure_is_swallowed :
    (execute_tool_call dFail (some "weather")).1.success = true ∧
    (execute_tool_call dFail (some "weather")).1.error = none ∧
    (execute_tool_call dFail (some "weather")).1.toolResult = some ⟨false, some "boom"⟩ :=
  ⟨rfl, rfl, rfl⟩

/-- C1, amended: if the dispatcher raises, `_execute_tool_call` reports the
step as failed with the exception text embedded after the prefix
`工具调用失败: ` and does not re-raise (the runner is a total function);
if the dispatcher returns a dictionary — whatever its `success` flag — the
step is reported as successful with the dictionary attached verbatim. -/
theorem tool_call_error_handling (dispatch : String → Except String ToolResult)
    (name : String) :
    (∀ e, dispatch name = Except.error e →
      (execute_tool_call dispatch (some name)).1.success = false ∧
      (execute_tool_call dispatch (some name)).1.error = some ("工具调用失败: " ++ e)) ∧
    (∀ r, dispatch name = Except.ok r →
      (execute_tool_call dispatch (some name)).1.success = true ∧
      (execute_tool_call dispatch (some name)).1.toolResult = some r) := by
  constructor
  · intro e he
    simp [execute_tool_call, he]
  · intro r hr
    simp [execute_tool_call, hr]

/-- Witness for C1's amended theorem at a raising dispatcher. -/
theorem tool_call_error_handling_witness :
    (execute_tool_call dRaise (some "weather")).1.success = false ∧
    (execute_tool_call dRaise (some "weather")).1.error = some ("工具调用失败: " ++ "超时") :=
  (tool_call_error_handling dRaise "weather").1 "超时" rfl

/-- C3, evaluation at the failing input: a task with one step whose
execution reports failure.  The persistence call for the failed step raises
`TypeError` (keyword `error` vs parameter `error_message`), so the step is
left `pending` with no `error_message`, the exception escapes into the
outer handler of `execute_task`, and the invocation returns
`success=False` with the `TypeError` text instead of a normal report. -/
theorem failed_step_is_never_persisted :
    (execute_step d0 none bogusStep).1.success = false ∧
    execute_task d0 none (some ⟨Status.pending, [bogusStep]⟩) =
      ⟨{ success := false, error := some updateStepKeywordError },
       some ⟨Status.failed, [bogusStep]⟩, 0⟩ :=
  ⟨rfl, rfl⟩

/-- C9: on a task already in a terminal status, `execute_task` fails fast
with `success=False`, performs zero dispatcher invocations, and leaves the
task state untouched. -/
theorem terminal_task_is_not_reexecuted (dispatch : String → Except String ToolResult)
    (callback : Option (Step → Except String Bool)) (st : TaskState)
    (h : isTerminal st.status = true) :
    execute_task dispatch callback (some st) =
      ⟨{ success := false, error := some ("任务状态无效: " ++ statusStr st.status) },
       some st, 0⟩ := by
  simp [execute_task, h]

/-- Witness for C9 at a completed task containing a tool-call step. -/
theorem terminal_task_is_not_reexecuted_witness :
    isTerminal Status.completed = true ∧
    execute_task d0 none
        (some ⟨Status.completed,
          [{ id := 1, step_num := 1, description := "查天气", action_type := "tool_call",
             tool_name := some "weather" }]⟩) =
      ⟨{ success := false, error := some ("任务状态无效: " ++ statusStr Status.completed) },
       some ⟨Status.completed,
         [{ id := 1, step_num := 1, description := "查天气", action_type := "tool_call",
            tool_name := some "weather" }]⟩, 0⟩ :=
  ⟨rfl, terminal_task_is_not_reexecuted d0 none _ rfl⟩

/-- C4, counterexample: a task with zero steps is set to `in_progress` and
then left there by the early `任务没有步骤` return, so the persisted status
after the invocation is `in_progress` — not one of completed, failed,
waiting. -/
theorem zero_step_task_left_in_progress :
    (execute_task d0 none (some ⟨Status.pending, []⟩)).task =
      some ⟨Status.in_progress, []⟩ ∧
    ¬(Status.in_progress = Status.completed ∨ Status.in_progress = Status.failed ∨
      Status.in_progress = Status.waiting) :=
  ⟨rfl, by decide⟩

/-- C2, counterexample: on a zero-step task the status derivation fails:
every step of the final state is (vacuously) completed, yet the final
persisted status is `in_progress`, not `completed`. -/
theorem zero_step_task_breaks_status_derivation :
    ∃ fin, (execute_task d0 none (some ⟨Status.waiting, []⟩)).task = some fin ∧
      (∀ s ∈ fin.steps, s.status = Status.completed) ∧ fin.status ≠ Status.completed := by
  refine ⟨⟨Status.in_progress, []⟩, rfl, ?_, by decide⟩
  intro s hs
  simp at hs

/-- C7: when the session's first waiting task has a waiting step and the
confirmation classifier labels the incoming message `unrelated`, the
resumption gate returns `None` and the persisted task and step state is
exactly as before the message. -/
theorem unrelated_message_leaves_state_untouched (classify : String → String → String)
    (dispatch : String → Except String ToolResult) (prompt : String)
    (sess rest : List SessTask) (task : SessTask) (wstep : Step)
    (hfilter : sess.filter (fun t => decide (t.status = Status.waiting)) = task :: rest)
    (hfind : task.steps.find? (fun s => decide (s.status = Status.waiting)) = some wstep)
    (hclass : classify prompt wstep.description = "unrelated") :
    check_and_resume classify dispatch prompt sess = (none, sess) := by
  unfold check_and_resume
  rw [hfilter]
  simp only [hfind, hclass]
  simp

/-- Witness for C7 at a concrete waiting session and an always-`unrelated`
classifier. -/
theorem unrelated_message_witness :
    check_and_resume (fun _ _ => "unrelated") d0 "今天天气怎么样" [waitingSessTask] =
      (none, [waitingSessTask]) :=
  unrelated_message_leaves_state_untouched (fun _ _ => "unrelated") d0 "今天天气怎么样"
    [waitingSessTask] [] waitingSessTask waitingStep rfl rfl rfl

/-- C8: (a) the creation guard skips creation whenever one of the user's
last 5 tasks has the identical title and was created less than 60 seconds
ago; (b) consequently, creating two tasks with the identical title for the
same user within 60 seconds yields exactly one persisted task with that
title. -/
theorem task_creation_dedup (store : List UTask) (title : String) (now t1 t2 : Int) :
    ((∃ t ∈ get_tasks_by_user store 5, t.title = title ∧ now - t.created_at < 60) →
      process_task_creation store title now = store) ∧
    ((∀ t ∈ store, t.title ≠ title) → t2 - t1 < 60 →
      countTitle (process_task_creation (process_task_creation store title t1) title t2) title
        = 1) := by
  constructor
  · rintro ⟨t, ht, h1, h2⟩
    unfold process_task_creation
    rw [if_pos]
    unfold is_duplicate_task
    rw [List.any_eq_true]
    exact ⟨t, ht, by simp [h1, h2]⟩
  · intro hnone hlt
    have hfirst : process_task_creation store title t1 = ⟨title, t1⟩ :: store := by
      unfold process_task_creation
      rw [if_neg]
      intro hdup
      unfold is_duplicate_task at hdup
      rw [List.any_eq_true] at hdup
      obtain ⟨t, ht, hp⟩ := hdup
      simp only [decide_eq_true_eq] at hp
      exact hnone t (List.mem_of_mem_take ht) hp.1
    rw [hfirst]
    have hsecond :
        process_task_creation (⟨title, t1⟩ :: store) title t2 = ⟨title, t1⟩ :: store := by
      unfold process_task_creation
      rw [if_pos]
      unfold is_duplicate_task
      rw [List.any_eq_true]
      refine ⟨⟨title, t1⟩, ?_, by simp [hlt]⟩
      unfold get_tasks_by_user
      simp
    rw [hsecond]
    have hzero : store.filter (fun t => decide (t.title = title)) = [] :=
      List.filter_eq_nil_iff.2 (fun t ht => by simp [hnone t ht])
    unfold countTitle
    simp [List.filter_cons, hzero]

/-- Witness for C8: creating `买咖啡` twice within 10 seconds from an empty
store leaves exactly one task with that title. -/
theorem task_creation_dedup_witness :
    countTitle
      (process_task_creation (process_task_creation ([] : List UTask) "买咖啡" 0) "买咖啡" 10)
      "买咖啡" = 1 :=
  (task_creation_dedup [] "买咖啡" 0 0 10).2 (by simp) (by decide)

/-- C4, amended: for every task that exists, is not terminal, and has at
least one step, the status persisted by `execute_task` is one of
`completed`, `failed`, `waiting` — the `in_progress` leak only happens on
zero-step tasks. -/
theorem task_status_settles_with_steps (dispatch : String → Except String ToolResult)
    (callback : Option (Step → Except String Bool)) (st : TaskState)
    (hterm : isTerminal st.status = false) (hne : st.steps ≠ []) :
    ∃ fin, (execute_task dispatch callback (some st)).task = some fin ∧
      (fin.status = Status.completed ∨ fin.status = Status.failed ∨
       fin.status = Status.waiting) := by
  cases hrun : runSteps dispatch callback st.steps ⟨⟨Status.in_progress, st.steps⟩, 0, 0, 0⟩ with
  | cont acc =>
    rw [execute_task_of_cont dispatch callback st acc hterm hne hrun]
    exact ⟨_, rfl, aggregateStatus_mem _ _ _⟩
  | halted acc =>
    rw [execute_task_of_halted dispatch callback st acc hterm hne hrun]
    exact ⟨_, rfl, aggregateStatus_mem _ _ _⟩
  | raised acc msg =>
    rw [execute_task_of_raised dispatch callback st acc msg hterm hne hrun]
    exact ⟨_, rfl, Or.inr (Or.inl rfl)⟩

/-- Witness for C4's amended theorem on a one-step task. -/
theorem task_status_settles_with_steps_witness :
    ∃ fin, (execute_task d0 none (some ⟨Status.pending, [infoStep]⟩)).task = some fin ∧
      (fin.status = Status.completed ∨ fin.status = Status.failed ∨
       fin.status = Status.waiting) :=
  task_status_settles_with_steps d0 none ⟨Status.pending, [infoStep]⟩ rfl (by simp)

/-- Shared helper: when the loop reaches an unsettled step whose execution
reports failure, `execute_task` ends with the `TypeError` report, the
store state produced by the earlier steps, and the task status `failed`. -/
lemma execute_task_fail_at (dispatch : String → Except String ToolResult)
    (callback : Option (Step → Except String Bool)) (st : TaskState) (pre : List Step)
    (step : Step) (post : List Step) (acc : LoopAcc)
    (hsteps : st.steps = pre ++ step :: post) (hterm : isTerminal st.status = false)
    (hpre : runSteps dispatch callback pre ⟨⟨Status.in_progress, st.steps⟩, 0, 0, 0⟩ =
      LoopOutcome.cont acc)
    (h1 : step.status ≠ Status.completed) (h2 : step.status ≠ Status.failed)
    (hfail : (execute_step dispatch callback step).1.success = false) :
    execute_task dispatch callback (some st) =
      ⟨{ success := false, error := some updateStepKeywordError },
       some { acc.state with status := Status.failed },
       acc.tool_calls + (execute_step dispatch callback step).2⟩ := by
  have hhd := runSteps_fail_head dispatch callback step post acc h1 h2 hfail
  have hne : st.steps ≠ [] := by rw [hsteps]; simp
  have hpre' := hpre
  rw [hsteps] at hpre'
  have hrun : runSteps dispatch callback st.steps ⟨⟨Status.in_progress, st.steps⟩, 0, 0, 0⟩ =
      LoopOutcome.raised
        { acc with tool_calls := acc.tool_calls + (execute_step dispatch callback step).2 }
        updateStepKeywordError := by
    rw [hsteps]
    rw [runSteps_append]
    simp only [hpre']
    exact hhd
  rw [execute_task_of_raised dispatch callback st _ _ hterm hne hrun]

/-- C6: when the loop reaches a step whose execution reports failure and
which does not carry `continue_on_error=true`, the loop halts at that step,
the task's persisted status ends `failed`, and every later step survives
untouched (in particular a pending later step is still pending). -/
theorem fail_fast_halts_task (dispatch : String → Except String ToolResult)
    (callback : Option (Step → Except String Bool)) (st : TaskState) (pre : List Step)
    (step : Step) (post : List Step) (acc : LoopAcc)
    (hsteps : st.steps = pre ++ step :: post) (hterm : isTerminal st.status = false)
    (hpre : runSteps dispatch callback pre ⟨⟨Status.in_progress, st.steps⟩, 0, 0, 0⟩ =
      LoopOutcome.cont acc)
    (h1 : step.status ≠ Status.completed) (h2 : step.status ≠ Status.failed)
    (_hcoe : step.continue_on_error = false)
    (hfail : (execute_step dispatch callback step).1.success = false) :
    runSteps dispatch callback (step :: post) acc =
      LoopOutcome.raised
        { acc with tool_calls := acc.tool_calls + (execute_step dispatch callback step).2 }
        updateStepKeywordError ∧
    ∃ fin, (execute_task dispatch callback (some st)).task = some fin ∧
      fin.status = Status.failed ∧
      (∀ q ∈ post, q.id ∉ pre.map Step.id → q ∈ fin.steps) := by
  refine ⟨runSteps_fail_head dispatch callback step post acc h1 h2 hfail, ?_⟩
  rw [execute_task_fail_at dispatch callback st pre step post acc hsteps hterm hpre h1 h2 hfail]
  refine ⟨_, rfl, rfl, ?_⟩
  intro q hq hqpre
  have hqmem : q ∈ st.steps := by
    rw [hsteps]
    exact List.mem_append_right _ (List.mem_cons_of_mem _ hq)
  have hid : ∀ p ∈ pre, p.id ≠ q.id := by
    intro p hp hc
    exact hqpre (hc ▸ List.mem_map_of_mem Step.id hp)
  have := runSteps_frame dispatch callback pre ⟨⟨Status.in_progress, st.steps⟩, 0, 0, 0⟩ q
    hqmem hid
  rw [hpre] at this
  exact this

/-- Witness for C6: a two-step task whose first step fails; the pending
second step survives and the task ends failed. -/
theorem fail_fast_halts_task_witness :
    runSteps d0 none (bogusStep :: [infoStep])
        ⟨⟨Status.in_progress, [bogusStep, infoStep]⟩, 0, 0, 0⟩ =
      LoopOutcome.raised
        { state := ⟨Status.in_progress, [bogusStep, infoStep]⟩, completed_steps := 0,
          failed_steps := 0,
          tool_calls := 0 + (execute_step d0 none bogusStep).2 }
        updateStepKeywordError ∧
    ∃ fin, (execute_task d0 none (some ⟨Status.pending, [bogusStep, infoStep]⟩)).task
        = some fin ∧
      fin.status = Status.failed ∧
      (∀ q ∈ [infoStep], q.id ∉ ([] : List Step).map Step.id → q ∈ fin.steps) :=
  fail_fast_halts_task d0 none ⟨Status.pending, [bogusStep, infoStep]⟩ [] bogusStep [infoStep]
    ⟨⟨Status.in_progress, [bogusStep, infoStep]⟩, 0, 0, 0⟩ rfl rfl rfl
    (by decide) (by decide) rfl rfl

/-- C10: a step whose `action_type` is outside
`{tool_call, user_confirm, wait, info}` makes `_execute_step` return
`success=False` with the `未知的步骤类型` error (no exception is raised by
the runner), and a task whose loop reaches such a step halts there and ends
with persisted status `failed`. -/
theorem unknown_action_type_fails_task (dispatch : String → Except String ToolResult)
    (callback : Option (Step → Except String Bool)) (st : TaskState) (pre : List Step)
    (step : Step) (post : List Step) (acc : LoopAcc)
    (ht1 : step.action_type ≠ "tool_call") (ht2 : step.action_type ≠ "user_confirm")
    (ht3 : step.action_type ≠ "wait") (ht4 : step.action_type ≠ "info")
    (h1 : step.status ≠ Status.completed) (h2 : step.status ≠ Status.failed)
    (hsteps : st.steps = pre ++ step :: post) (hterm : isTerminal st.status = false)
    (hpre : runSteps dispatch callback pre ⟨⟨Status.in_progress, st.steps⟩, 0, 0, 0⟩ =
      LoopOutcome.cont acc) :
    (execute_step dispatch callback step).1 =
      { success := false, error := some ("未知的步骤类型: " ++ step.action_type) } ∧
    (execute_task dispatch callback (some st)).report.success = false ∧
    ∃ fin, (execute_task dispatch callback (some st)).task = some fin ∧
      fin.status = Status.failed := by
  have hstep : execute_step dispatch callback step =
      ({ success := false, error := some ("未知的步骤类型: " ++ step.action_type) }, 0) := by
    unfold execute_step
    rw [if_neg ht1, if_neg ht2, if_neg ht3, if_neg ht4]
  have hfail : (execute_step dispatch callback step).1.success = false := by rw [hstep]
  refine ⟨by rw [hstep], ?_, ?_⟩
  · rw [execute_task_fail_at dispatch callback st pre step post acc hsteps hterm hpre h1 h2 hfail]
  · rw [execute_task_fail_at dispatch callback st pre step post acc hsteps hterm hpre h1 h2 hfail]
    exact ⟨_, rfl, rfl⟩

/-- Witness for C10 at a one-step task whose step has action type `bogus`. -/
theorem unknown_action_type_fails_task_witness :
    (execute_step d0 none bogusStep).1 =
      { success := false, error := some ("未知的步骤类型: " ++ bogusStep.action_type) } ∧
    (execute_task d0 none (some ⟨Status.waiting, [bogusStep]⟩)).report.success = false ∧
    ∃ fin, (execute_task d0 none (some ⟨Status.waiting, [bogusStep]⟩)).task = some fin ∧
      fin.status = Status.failed :=
  unknown_action_type_fails_task d0 none ⟨Status.waiting, [bogusStep]⟩ [] bogusStep []
    ⟨⟨Status.in_progress, [bogusStep]⟩, 0, 0, 0⟩
    (by decide) (by decide) (by decide) (by decide) (by decide) (by decide) rfl rfl rfl

/-- The element being updated is mapped to its updated version. -/
lemma self_mem_updateStepList (l : List Step) (q : Step) (stat : Status)
    (r e : Option String) (hq : q ∈ l) :
    stepWithUpdate q stat r e ∈ updateStepList l q.id stat r e := by
  unfold updateStepList
  have := List.mem_map_of_mem
    (fun s => if s.id = q.id then stepWithUpdate s stat r e else s) hq
  simpa using this

/-- C5: a `user_confirm` step executed with no confirm callback yields a
`success=True` result with `status='waiting'` (never completed or failed);
when the loop reaches it, the step is persisted as `waiting`, the loop
halts immediately, and every later step survives untouched — no later step
runs in that invocation. -/
theorem user_confirm_without_callback_waits (dispatch : String → Except String ToolResult)
    (st : TaskState) (pre : List Step) (step : Step) (post : List Step) (acc : LoopAcc)
    (htype : step.action_type = "user_confirm")
    (h1 : step.status ≠ Status.completed) (h2 : step.status ≠ Status.failed)
    (hsteps : st.steps = pre ++ step :: post) (hterm : isTerminal st.status = false)
    (hfresh : step.id ∉ pre.map Step.id)
    (hpre : runSteps dispatch none pre ⟨⟨Status.in_progress, st.steps⟩, 0, 0, 0⟩ =
      LoopOutcome.cont acc) :
    (execute_user_confirm none step).success = true ∧
    (execute_user_confirm none step).status = some "waiting" ∧
    runSteps dispatch none (step :: post) acc =
      LoopOutcome.halted
        { acc with
          tool_calls := acc.tool_calls + (execute_step dispatch none step).2
          state := update_step_status acc.state step.id Status.waiting
            (some (jsonOfStepResult (execute_step dispatch none step).1)) none } ∧
    ∃ fin, (execute_task dispatch none (some st)).task = some fin ∧
      stepWithUpdate step Status.waiting
        (some (jsonOfStepResult (execute_step dispatch none step).1)) none ∈ fin.steps ∧
      (stepWithUpdate step Status.waiting
        (some (jsonOfStepResult (execute_step dispatch none step).1)) none).status
        = Status.waiting ∧
      (∀ q ∈ post, q.id ∉ pre.map Step.id → q.id ≠ step.id → q ∈ fin.steps) := by
  have hne1 : ¬step.action_type = "tool_call" := by rw [htype]; decide
  have hstep : execute_step dispatch none step = (execute_user_confirm none step, 0) := by
    unfold execute_step
    rw [if_neg hne1, if_pos htype]
  have hw : (execute_step dispatch none step).1.status = some "waiting" := by rw [hstep]; rfl
  have hhd := runSteps_waiting_head dispatch none step post acc h1 h2 hw
  have hne : st.steps ≠ [] := by rw [hsteps]; simp
  have hpre' := hpre
  rw [hsteps] at hpre'
  have hrun : runSteps dispatch none st.steps ⟨⟨Status.in_progress, st.steps⟩, 0, 0, 0⟩ =
      LoopOutcome.halted
        { acc with
          tool_calls := acc.tool_calls + (execute_step dispatch none step).2
          state := update_step_status acc.state step.id Status.waiting
            (some (jsonOfStepResult (execute_step dispatch none step).1)) none } := by
    rw [hsteps]
    rw [runSteps_append]
    simp only [hpre']
    exact hhd
  have hmemstep : step ∈ st.steps := by
    rw [hsteps]
    exact List.mem_append_right _ (List.mem_cons_self _ _)
  have hframe_step := runSteps_frame dispatch none pre
    ⟨⟨Status.in_progress, st.steps⟩, 0, 0, 0⟩ step hmemstep
    (fun p hp hc => hfresh (hc ▸ List.mem_map_of_mem Step.id hp))
  rw [hpre] at hframe_step
  refine ⟨rfl, rfl, hhd, ?_⟩
  rw [execute_task_of_halted dispatch none st _ hterm hne hrun]
  refine ⟨_, rfl, ?_, rfl, ?_⟩
  · exact self_mem_updateStepList acc.state.steps step Status.waiting _ _ hframe_step
  · intro q hq hqpre hqstep
    have hqmem : q ∈ st.steps := by
      rw [hsteps]
      exact List.mem_append_right _ (List.mem_cons_of_mem _ hq)
    have hframe_q := runSteps_frame dispatch none pre
      ⟨⟨Status.in_progress, st.steps⟩, 0, 0, 0⟩ q hqmem
      (fun p hp hc => hqpre (hc ▸ List.mem_map_of_mem Step.id hp))
    rw [hpre] at hframe_q
    exact mem_updateStepList acc.state.steps step.id Status.waiting _ _ q hframe_q hqstep

/-- Witness for C5: a task with a pending confirm step followed by an info
step, executed with no callback. -/
theorem user_confirm_without_callback_waits_witness :
    (execute_user_confirm none confirmStep).success = true ∧
    (execute_user_confirm none confirmStep).status = some "waiting" ∧
    runSteps d0 none (confirmStep :: [infoStep])
        ⟨⟨Status.in_progress, [confirmStep, infoStep]⟩, 0, 0, 0⟩ =
      LoopOutcome.halted
        { state := update_step_status ⟨Status.in_progress, [confirmStep, infoStep]⟩
            confirmStep.id Status.waiting
            (some (jsonOfStepResult (execute_step d0 none confirmStep).1)) none,
          completed_steps := 0, failed_steps := 0,
          tool_calls := 0 + (execute_step d0 none confirmStep).2 } ∧
    ∃ fin, (execute_task d0 none (some ⟨Status.pending, [confirmStep, infoStep]⟩)).task
        = some fin ∧
      stepWithUpdate confirmStep Status.waiting
        (some (jsonOfStepResult (execute_step d0 none confirmStep).1)) none ∈ fin.steps ∧
      (stepWithUpdate confirmStep Status.waiting
        (some (jsonOfStepResult (execute_step d0 none confirmStep).1)) none).status
        = Status.waiting ∧
      (∀ q ∈ [infoStep], q.id ∉ ([] : List Step).map Step.id → q.id ≠ confirmStep.id →
        q ∈ fin.steps) := by
  have h := user_confirm_without_callback_waits d0
    ⟨Status.pending, [confirmStep, infoStep]⟩ [] confirmStep [infoStep]
    ⟨⟨Status.in_progress, [confirmStep, infoStep]⟩, 0, 0, 0⟩
    rfl (by decide) (by decide) rfl rfl (by simp) rfl
  exact h

/-! ### Characterisation of the step loop, towards the status derivation -/

/-- Number of steps of a list carrying the given status. -/
def countStatus (l : List Step) (st : Status) : Nat :=
  (l.filter (fun s => decide (s.status = st))).length

lemma countStatus_cons_eq (s : Step) (l : List Step) (st : Status) (h : s.status = st) :
    countStatus (s :: l) st = countStatus l st + 1 := by
  simp [countStatus, List.filter_cons, h]

lemma countStatus_cons_ne (s : Step) (l : List Step) (st : Status) (h : s.status ≠ st) :
    countStatus (s :: l) st = countStatus l st := by
  simp [countStatus, List.filter_cons, h]

lemma countStatus_le_length (l : List Step) (st : Status) : countStatus l st ≤ l.length :=
  List.length_filter_le _ l

lemma countStatus_eq_length_iff (l : List Step) (st : Status) :
    countStatus l st = l.length ↔ ∀ s ∈ l, s.status = st := by
  unfold countStatus
  constructor
  · intro h s hs
    have heq := (List.filter_sublist l
      (p := fun s => decide (s.status = st))).eq_of_length h
    rw [List.filter_eq_self] at heq
    simpa using heq s hs
  · intro h
    rw [List.filter_eq_self.2 (fun a ha => by simp [h a ha])]

lemma countStatus_pos_iff (l : List Step) (st : Status) :
    0 < countStatus l st ↔ ∃ s ∈ l, s.status = st := by
  unfold countStatus
  rw [List.length_pos]
  constructor
  · intro h
    rcases hl : l.filter (fun s => decide (s.status = st)) with _ | ⟨a, t⟩
    · exact absurd hl h
    · have ha := List.mem_filter.1 (hl ▸ List.mem_cons_self a t)
      exact ⟨a, ha.1, by simpa using ha.2⟩
  · rintro ⟨s, hs, hst⟩ hnil
    have : s ∈ l.filter (fun s => decide (s.status = st)) :=
      List.mem_filter.2 ⟨hs, by simp [hst]⟩
    simp [hnil] at this

lemma countStatus_settled_sum (l : List Step)
    (h : ∀ s ∈ l, s.status = Status.completed ∨ s.status = Status.failed) :
    countStatus l Status.completed + countStatus l Status.failed = l.length := by
  induction l with
  | nil => rfl
  | cons a t ih =>
    have ht := ih (fun s hs => h s (List.mem_cons_of_mem a hs))
    rcases h a (List.mem_cons_self a t) with ha | ha
    · rw [countStatus_cons_eq a t _ ha, countStatus_cons_ne a t _ (by rw [ha]; decide)]
      simp only [List.length_cons]
      omega
    · rw [countStatus_cons_ne a t _ (by rw [ha]; decide), countStatus_cons_eq a t _ ha]
      simp only [List.length_cons]
      omega

/-- Loop fall-through: the processed suffix has been driven to settled
statuses and the tallies count exactly those statuses. -/
def ContSpec (done : List Step) (n cs fs : Nat) (acc : LoopAcc) : Prop :=
  ∃ rest2,
    acc.state.steps = done ++ rest2 ∧
    rest2.length = n ∧
    (∀ s ∈ rest2, s.status = Status.completed ∨ s.status = Status.failed) ∧
    acc.completed_steps = cs + countStatus rest2 Status.completed ∧
    acc.failed_steps = fs + countStatus rest2 Status.failed

/-- Loop break on a waiting step: a settled prefix, the waiting step, and
an untouched tail. -/
def HaltSpec (done : List Step) (n cs fs : Nat) (acc : LoopAcc) : Prop :=
  ∃ fin1 w fin2,
    acc.state.steps = done ++ fin1 ++ w :: fin2 ∧
    fin1.length + 1 + fin2.length = n ∧
    (∀ s ∈ fin1, s.status = Status.completed ∨ s.status = Status.failed) ∧
    w.status = Status.waiting ∧
    acc.completed_steps = cs + countStatus fin1 Status.completed ∧
    acc.failed_steps = fs + countStatus fin1 Status.failed

/-- Loop aborted by the `TypeError`: a settled prefix, the failing step
left untouched (its status is still unsettled), and an untouched tail. -/
def RaiseSpec (done : List Step) (n cs fs : Nat) (acc : LoopAcc) : Prop :=
  ∃ fin1 x fin2,
    acc.state.steps = done ++ fin1 ++ x :: fin2 ∧
    fin1.length + 1 + fin2.length = n ∧
    (∀ s ∈ fin1, s.status = Status.completed ∨ s.status = Status.failed) ∧
    x.status ≠ Status.completed ∧ x.status ≠ Status.failed ∧
    acc.completed_steps = cs + countStatus fin1 Status.completed ∧
    acc.failed_steps = fs + countStatus fin1 Status.failed

/-- The per-outcome characterisation of the step loop. -/
def OutSpec (done : List Step) (n cs fs : Nat) : LoopOutcome → Prop
  | LoopOutcome.cont acc => ContSpec done n cs fs acc
  | LoopOutcome.halted acc => HaltSpec done n cs fs acc
  | LoopOutcome.raised acc _ => RaiseSpec done n cs fs acc

lemma OutSpec_shift_completed (done : List Step) (step : Step) (n cs fs : Nat)
    (o : LoopOutcome) (hst : step.status = Status.completed)
    (h : OutSpec (done ++ [step]) n (cs + 1) fs o) : OutSpec done (n + 1) cs fs o := by
  have hne : step.status ≠ Status.failed := by rw [hst]; decide
  cases o with
  | cont acc =>
    obtain ⟨rest2, hsteps, hlen, hset, hcs, hfs⟩ := h
    refine ⟨step :: rest2, by rw [hsteps]; simp, by simp [hlen], ?_, ?_, ?_⟩
    · intro s hs
      rcases List.mem_cons.1 hs with h' | h'
      · exact h' ▸ Or.inl hst
      · exact hset s h'
    · rw [countStatus_cons_eq _ _ _ hst]; omega
    · rw [countStatus_cons_ne _ _ _ hne]; omega
  | halted acc =>
    obtain ⟨fin1, w, fin2, hsteps, hlen, hset, hw, hcs, hfs⟩ := h
    refine ⟨step :: fin1, w, fin2, by rw [hsteps]; simp, by simp only [List.length_cons]; omega,
      ?_, hw, ?_, ?_⟩
    · intro s hs
      rcases List.mem_cons.1 hs with h' | h'
      · exact h' ▸ Or.inl hst
      · exact hset s h'
    · rw [countStatus_cons_eq _ _ _ hst]; omega
    · rw [countStatus_cons_ne _ _ _ hne]; omega
  | raised acc msg =>
    obtain ⟨fin1, x, fin2, hsteps, hlen, hset, hxc, hxf, hcs, hfs⟩ := h
    refine ⟨step :: fin1, x, fin2, by rw [hsteps]; simp, by simp only [List.length_cons]; omega,
      ?_, hxc, hxf, ?_, ?_⟩
    · intro s hs
      rcases List.mem_cons.1 hs with h' | h'
      · exact h' ▸ Or.inl hst
      · exact hset s h'
    · rw [countStatus_cons_eq _ _ _ hst]; omega
    · rw [countStatus_cons_ne _ _ _ hne]; omega

lemma OutSpec_shift_failed (done : List Step) (step : Step) (n cs fs : Nat)
    (o : LoopOutcome) (hst : step.status = Status.failed)
    (h : OutSpec (done ++ [step]) n cs (fs + 1) o) : OutSpec done (n + 1) cs fs o := by
  have hne : step.status ≠ Status.completed := by rw [hst]; decide
  cases o with
  | cont acc =>
    obtain ⟨rest2, hsteps, hlen, hset, hcs, hfs⟩ := h
    refine ⟨step :: rest2, by rw [hsteps]; simp, by simp [hlen], ?_, ?_, ?_⟩
    · intro s hs
      rcases List.mem_cons.1 hs with h' | h'
      · exact h' ▸ Or.inr hst
      · exact hset s h'
    · rw [countStatus_cons_ne _ _ _ hne]; omega
    · rw [countStatus_cons_eq _ _ _ hst]; omega
  | halted acc =>
    obtain ⟨fin1, w, fin2, hsteps, hlen, hset, hw, hcs, hfs⟩ := h
    refine ⟨step :: fin1, w, fin2, by rw [hsteps]; simp, by simp only [List.length_cons]; omega,
      ?_, hw, ?_, ?_⟩
    · intro s hs
      rcases List.mem_cons.1 hs with h' | h'
      · exact h' ▸ Or.inr hst
      · exact hset s h'
    · rw [countStatus_cons_ne _ _ _ hne]; omega
    · rw [countStatus_cons_eq _ _ _ hst]; omega
  | raised acc msg =>
    obtain ⟨fin1, x, fin2, hsteps, hlen, hset, hxc, hxf, hcs, hfs⟩ := h
    refine ⟨step :: fin1, x, fin2, by rw [hsteps]; simp, by simp only [List.length_cons]; omega,
      ?_, hxc, hxf, ?_, ?_⟩
    · intro s hs
      rcases List.mem_cons.1 hs with h' | h'
      · exact h' ▸ Or.inr hst
      · exact hset s h'
    · rw [countStatus_cons_ne _ _ _ hne]; omega
    · rw [countStatus_cons_eq _ _ _ hst]; omega

/-- Characterisation of the step loop of `execute_task`: starting from a
store state `done ++ rest` with unique step ids, where `rest` is the part
still to be iterated, the outcome satisfies `OutSpec`. -/
lemma runSteps_spec (dispatch : String → Except String ToolResult)
    (callback : Option (Step → Except String Bool)) :
    ∀ (rest done : List Step) (acc : LoopAcc),
      acc.state.steps = done ++ rest →
      ((done ++ rest).map Step.id).Nodup →
      OutSpec done rest.length acc.completed_steps acc.failed_steps
        (runSteps dispatch callback rest acc) := by
  intro rest
  induction rest with
  | nil =>
    intro done acc hacc h
    exact ⟨[], by simpa using hacc, rfl, by simp, by simp [countStatus], by simp [countStatus]⟩
  | cons step rest ih =>
    intro done acc hacc h
    simp only [runSteps]
    by_cases hc : step.status = Status.completed
    · rw [if_pos hc]
      have hacc' : ({ acc with completed_steps := acc.completed_steps + 1 } : LoopAcc).state.steps
          = (done ++ [step]) ++ rest := by simpa using hacc
      have hnd : (((done ++ [step]) ++ rest).map Step.id).Nodup := by simpa using h
      have hspec := ih (done ++ [step]) _ hacc' hnd
      exact OutSpec_shift_completed done step rest.length acc.completed_steps acc.failed_steps
        _ hc hspec
    · rw [if_neg hc]
      by_cases hf : step.status = Status.failed
      · rw [if_pos hf]
        have hacc' : ({ acc with failed_steps := acc.failed_steps + 1 } : LoopAcc).state.steps
            = (done ++ [step]) ++ rest := by simpa using hacc
        have hnd : (((done ++ [step]) ++ rest).map Step.id).Nodup := by simpa using h
        have hspec := ih (done ++ [step]) _ hacc' hnd
        exact OutSpec_shift_failed done step rest.length acc.completed_steps acc.failed_steps
          _ hf hspec
      · rw [if_neg hf]
        by_cases hw : (execute_step dispatch callback step).1.status = some "waiting"
        · rw [if_pos hw]
          refine ⟨[], stepWithUpdate step Status.waiting
            (some (jsonOfStepResult (execute_step dispatch callback step).1)) none, rest,
            ?_, by simp; omega, by simp, rfl, by simp [countStatus], by simp [countStatus]⟩
          show (update_step_status acc.state step.id Status.waiting
            (some (jsonOfStepResult (execute_step dispatch callback step).1)) none).steps = _
          calc (update_step_status acc.state step.id Status.waiting
                (some (jsonOfStepResult (execute_step dispatch callback step).1)) none).steps
              = updateStepList acc.state.steps step.id Status.waiting
                (some (jsonOfStepResult (execute_step dispatch callback step).1)) none := rfl
            _ = updateStepList (done ++ step :: rest) step.id Status.waiting
                (some (jsonOfStepResult (execute_step dispatch callback step).1)) none := by
                  rw [hacc]
            _ = done ++ stepWithUpdate step Status.waiting
                (some (jsonOfStepResult (execute_step dispatch callback step).1)) none :: rest :=
                  updateStepList_append done step rest _ _ _ h
            _ = done ++ [] ++ stepWithUpdate step Status.waiting
                (some (jsonOfStepResult (execute_step dispatch callback step).1)) none :: rest := by
                  simp
        · rw [if_neg hw]
          by_cases hsu : (execute_step dispatch callback step).1.success = true
          · rw [if_pos hsu]
            have hsteps' : (update_step_status acc.state step.id Status.completed
                (some (jsonOfStepResult (execute_step dispatch callback step).1)) none).steps
                = (done ++ [stepWithUpdate step Status.completed
                    (some (jsonOfStepResult (execute_step dispatch callback step).1)) none])
                  ++ rest := by
              calc (update_step_status acc.state step.id Status.completed
                    (some (jsonOfStepResult (execute_step dispatch callback step).1)) none).steps
                  = updateStepList acc.state.steps step.id Status.completed
                    (some (jsonOfStepResult (execute_step dispatch callback step).1)) none := rfl
                _ = updateStepList (done ++ step :: rest) step.id Status.completed
                    (some (jsonOfStepResult (execute_step dispatch callback step).1)) none := by
                      rw [hacc]
                _ = done ++ stepWithUpdate step Status.completed
                    (some (jsonOfStepResult (execute_step dispatch callback step).1)) none
                    :: rest := updateStepList_append done step rest _ _ _ h
                _ = (done ++ [stepWithUpdate step Status.completed
                    (some (jsonOfStepResult (execute_step dispatch callback step).1)) none])
                    ++ rest := by simp
            have hnd' : (((done ++ [stepWithUpdate step Status.completed
                (some (jsonOfStepResult (execute_step dispatch callback step).1)) none])
                ++ rest).map Step.id).Nodup := by
              have hids : ((done ++ [stepWithUpdate step Status.completed
                  (some (jsonOfStepResult (execute_step dispatch callback step).1)) none])
                  ++ rest).map Step.id = (done ++ step :: rest).map Step.id := by
                simp [stepWithUpdate]
              rw [hids]
              exact h
            have hspec := ih (done ++ [stepWithUpdate step Status.completed
              (some (jsonOfStepResult (execute_step dispatch callback step).1)) none])
              { state := update_step_status acc.state step.id Status.completed
                  (some (jsonOfStepResult (execute_step dispatch callback step).1)) none,
                completed_steps := acc.completed_steps + 1,
                failed_steps := acc.failed_steps,
                tool_calls := acc.tool_calls + (execute_step dispatch callback step).2 }
              hsteps' hnd'
            exact OutSpec_shift_completed done
              (stepWithUpdate step Status.completed
                (some (jsonOfStepResult (execute_step dispatch callback step).1)) none)
              rest.length acc.completed_steps acc.failed_steps _ rfl hspec
          · rw [if_neg hsu]
            exact ⟨[], step, rest, by simpa using hacc, by simp; omega, by simp, hc, hf,
              by simp [countStatus], by simp [countStatus]⟩

/-- C2, amended: for every task that exists, is non-terminal, has at least
one step, and has unique step ids, the status persisted by `execute_task`
is `completed` iff every step of the final state is `completed`; a `failed`
step forces the final status to `failed` except when the run halted on a
waiting step (then the status is `waiting` and a failed step can only sit
after the halt point); in particular, if no step of the final state is
`waiting`, a failed step forces final status `failed`. -/
theorem task_status_matches_steps (dispatch : String → Except String ToolResult)
    (callback : Option (Step → Except String Bool)) (st : TaskState)
    (hterm : isTerminal st.status = false) (hne : st.steps ≠ [])
    (hnodup : (st.steps.map Step.id).Nodup) :
    ∃ fin, (execute_task dispatch callback (some st)).task = some fin ∧
      (fin.status = Status.completed ↔ ∀ s ∈ fin.steps, s.status = Status.completed) ∧
      ((∃ s ∈ fin.steps, s.status = Status.failed) →
        fin.status = Status.failed ∨ fin.status = Status.waiting) ∧
      ((∃ s ∈ fin.steps, s.status = Status.failed) →
        (∀ s ∈ fin.steps, s.status ≠ Status.waiting) → fin.status = Status.failed) := by
  have hspec : OutSpec [] st.steps.length 0 0
      (runSteps dispatch callback st.steps ⟨⟨Status.in_progress, st.steps⟩, 0, 0, 0⟩) :=
    runSteps_spec dispatch callback st.steps [] ⟨⟨Status.in_progress, st.steps⟩, 0, 0, 0⟩
      rfl (by simpa using hnodup)
  cases hrun : runSteps dispatch callback st.steps ⟨⟨Status.in_progress, st.steps⟩, 0, 0, 0⟩ with
  | cont acc =>
    rw [hrun] at hspec
    simp only [OutSpec] at hspec
    obtain ⟨rest2, hsteps, hlen, hset, hcs, hfs⟩ := hspec
    rw [execute_task_of_cont dispatch callback st acc hterm hne hrun]
    have hsteps2 : acc.state.steps = rest2 := by simpa using hsteps
    have hsum := countStatus_settled_sum rest2 hset
    rcases Nat.eq_zero_or_pos (countStatus rest2 Status.failed) with hb | hb
    · have hagg : aggregateStatus st.steps.length acc.completed_steps acc.failed_steps
          = Status.completed := by
        unfold aggregateStatus
        rw [if_neg (by omega), if_pos (by omega)]
      refine ⟨_, rfl, ?_, ?_, ?_⟩
      · show aggregateStatus st.steps.length acc.completed_steps acc.failed_steps
            = Status.completed ↔ ∀ s ∈ acc.state.steps, s.status = Status.completed
        rw [hagg, hsteps2]
        exact ⟨fun _ => (countStatus_eq_length_iff rest2 Status.completed).1 (by omega),
          fun _ => rfl⟩
      · show (∃ s ∈ acc.state.steps, s.status = Status.failed) → _
        rw [hsteps2]
        intro hex
        exact absurd ((countStatus_pos_iff rest2 Status.failed).2 hex) (by omega)
      · show (∃ s ∈ acc.state.steps, s.status = Status.failed) → _
        rw [hsteps2]
        intro hex
        exact absurd ((countStatus_pos_iff rest2 Status.failed).2 hex) (by omega)
    · have hagg : aggregateStatus st.steps.length acc.completed_steps acc.failed_steps
          = Status.failed := by
        unfold aggregateStatus
        by_cases ha : acc.completed_steps = 0
        · rw [if_pos ⟨by omega, ha⟩]
        · rw [if_neg (by omega), if_neg (by omega), if_pos (by omega)]
      refine ⟨_, rfl, ?_, fun _ => Or.inl hagg, fun _ _ => hagg⟩
      show aggregateStatus st.steps.length acc.completed_steps acc.failed_steps
          = Status.completed ↔ ∀ s ∈ acc.state.steps, s.status = Status.completed
      rw [hagg, hsteps2]
      constructor
      · intro hcf
        exact absurd hcf (by decide)
      · intro hall
        obtain ⟨s, hs, hsf⟩ := (countStatus_pos_iff rest2 Status.failed).1 hb
        rw [hall s hs] at hsf
        exact absurd hsf (by decide)
  | halted acc =>
    rw [hrun] at hspec
    simp only [OutSpec] at hspec
    obtain ⟨fin1, w, fin2, hsteps, hlen, hset, hw, hcs, hfs⟩ := hspec
    rw [execute_task_of_halted dispatch callback st acc hterm hne hrun]
    have hsteps2 : acc.state.steps = fin1 ++ w :: fin2 := by simpa using hsteps
    have hle := countStatus_le_length fin1 Status.completed
    have hwmem : w ∈ acc.state.steps := by
      rw [hsteps2]
      exact List.mem_append_right _ (List.mem_cons_self _ _)
    have hagg : aggregateStatus st.steps.length acc.completed_steps acc.failed_steps
          ≠ Status.completed ∧
        (aggregateStatus st.steps.length acc.completed_steps acc.failed_steps = Status.failed ∨
         aggregateStatus st.steps.length acc.completed_steps acc.failed_steps
          = Status.waiting) := by
      unfold aggregateStatus
      split_ifs with h1 h2 h3
      · exact ⟨by decide, Or.inl rfl⟩
      · exact absurd h2 (by omega)
      · exact ⟨by decide, Or.inl rfl⟩
      · exact ⟨by decide, Or.inr rfl⟩
    refine ⟨_, rfl, ?_, fun _ => hagg.2, fun _ hnw => absurd hw (hnw w hwmem)⟩
    constructor
    · intro hcf
      exact absurd hcf hagg.1
    · intro hall
      have hwc := hall w hwmem
      rw [hwc] at hw
      exact absurd hw (by decide)
  | raised acc msg =>
    rw [hrun] at hspec
    simp only [OutSpec] at hspec
    obtain ⟨fin1, x, fin2, hsteps, hlen, hset, hxc, hxf, hcs, hfs⟩ := hspec
    rw [execute_task_of_raised dispatch callback st acc msg hterm hne hrun]
    have hsteps2 : acc.state.steps = fin1 ++ x :: fin2 := by simpa using hsteps
    have hxmem : x ∈ acc.state.steps := by
      rw [hsteps2]
      exact List.mem_append_right _ (List.mem_cons_self _ _)
    refine ⟨_, rfl, ?_, fun _ => Or.inl rfl, fun _ _ => rfl⟩
    constructor
    · intro hcf
      simp at hcf
    · intro hall
      exact absurd (hall x hxmem) hxc

/-- Witness for C2's amended theorem on a concrete three-step task. -/
theorem task_status_matches_steps_witness :
    ∃ fin, (execute_task d0 none
        (some ⟨Status.pending, [infoStep, confirmStep]⟩)).task = some fin ∧
      (fin.status = Status.completed ↔ ∀ s ∈ fin.steps, s.status = Status.completed) ∧
      ((∃ s ∈ fin.steps, s.status = Status.failed) →
        fin.status = Status.failed ∨ fin.status = Status.waiting) ∧
      ((∃ s ∈ fin.steps, s.status = Status.failed) →
        (∀ s ∈ fin.steps, s.status ≠ Status.waiting) → fin.status = Status.failed) :=
  task_status_matches_steps d0 none ⟨Status.pending, [infoStep, confirmStep]⟩
    rfl (by simp) (by decide)

end XiaoLe
